import Mathlib

/-!
Verification development for a small pygame scene-graph engine
(`game_engine.py`) together with the obstacle-avoidance game built on it
(`main.py`).  The Python classes are shallowly embedded: positions and
time deltas are rationals, pygame surfaces/images are opaque handles,
the `random.randint` call is an oracle input, and the in-place list
mutations of the pipe manager are modelled by an explicit fold that
threads the mutated lists.
-/

namespace JocPygame

/-- Screen width, the module-level `width = 800` of `main.py`. -/
def screenW : ℚ := 800

/-- Screen height, the module-level `height = 600` of `main.py`. -/
def screenH : ℚ := 600

/-! ### Scene graph: `GameObject.update_all` / `draw_all`

`SNode` models a `GameObject` from the point of view of its child tree:
a numeric identity (Python object identity), the `enabled` flag, an
abstract scalar state standing for the node's own mutable data, and the
ordered `children` list.  The virtual `update` hook, which in the source
only mutates the node's own attributes, is modelled by a function of the
time delta, the node identity and the node state. -/
inductive SNode : Type where
  | mk (nid : Nat) (enabled : Bool) (st : Int) (children : List SNode)

/-- Identity of a node. -/
def SNode.nid : SNode → Nat
  | .mk i _ _ _ => i

/-- The `enabled` flag of a node. -/
def SNode.enabled : SNode → Bool
  | .mk _ e _ _ => e

/-- The abstract own state of a node. -/
def SNode.st : SNode → Int
  | .mk _ _ s _ => s

/-- The ordered children list of a node. -/
def SNode.children : SNode → List SNode
  | .mk _ _ _ ch => ch

mutual

/-- `GameObject.update_all`: if `enabled`, run the node's own `update`
(the hook `f`), then recurse into the children in insertion order;
otherwise do nothing at all. -/
def update_all (f : ℚ → Nat → Int → Int) (dt : ℚ) : SNode → SNode
  | .mk i e s ch =>
      if e then .mk i e (f dt i s) (update_allL f dt ch) else .mk i e s ch

/-- `update_all` mapped over a children list, in order. -/
def update_allL (f : ℚ → Nat → Int → Int) (dt : ℚ) : List SNode → List SNode
  | [] => []
  | c :: cs => update_all f dt c :: update_allL f dt cs

end

mutual

/-- The sequence of node identities whose own `update` runs during
`update_all`, in execution order. -/
def updateTrace : SNode → List Nat
  | .mk i e _ ch => if e then i :: updateTraceL ch else []

/-- `updateTrace` over a children list, concatenated in order. -/
def updateTraceL : List SNode → List Nat
  | [] => []
  | c :: cs => updateTrace c ++ updateTraceL cs

end

mutual

/-- The sequence of node identities whose own `draw` runs during
`GameObject.draw_all`, in execution order: the node itself first, then
every descendant in insertion order, with no gating on `enabled`. -/
def drawTrace : SNode → List Nat
  | .mk i _ _ ch => i :: drawTraceL ch

/-- `drawTrace` over a children list, concatenated in order. -/
def drawTraceL : List SNode → List Nat
  | [] => []
  | c :: cs => drawTrace c ++ drawTraceL cs

end

mutual

/-- Rewrite every `enabled` flag in a tree by `g` (which may consult the
node identity), leaving identities, states and structure unchanged. -/
def mapEnabled (g : Nat → Bool → Bool) : SNode → SNode
  | .mk i e s ch => .mk i (g i e) s (mapEnabledL g ch)

/-- `mapEnabled` over a children list. -/
def mapEnabledL (g : Nat → Bool → Bool) : List SNode → List SNode
  | [] => []
  | c :: cs => mapEnabled g c :: mapEnabledL g cs

end

/-! ### `GameObject.get_abs_pos`

`PNode` is the parent-chain view of a `GameObject`: either the object
has no parent (`parent_obj is None`) or it holds its local position
together with its parent chain. -/
inductive PNode : Type where
  | root (x y : ℚ)
  | child (parent : PNode) (x y : ℚ)

/-- `GameObject.get_abs_pos`: the local position at the root of the
ownership chain, otherwise the parent's absolute position plus the local
position. -/
def get_abs_pos : PNode → ℚ × ℚ
  | .root x y => (x, y)
  | .child p x y =>
      let q := get_abs_pos p
      (q.1 + x, q.2 + y)

/-- Local position of a parented node. -/
def PNode.localPos : PNode → ℚ × ℚ
  | .root x y => (x, y)
  | .child _ x y => (x, y)

/-! ### Rects and collision (`RectObject`, `pygame.Rect.collidelist`)

Rect coordinates stay rational: the integer truncation pygame applies
inside `pygame.Rect` belongs to the external library, not to this
repository's code. -/

/-- An axis-aligned rectangle, as carried by `RectObject.rect`. -/
structure Rect where
  x : ℚ
  y : ℚ
  w : ℚ
  h : ℚ
deriving DecidableEq, Repr

/-- `pygame.Rect.colliderect`: strict overlap on both axes. -/
def colliderect (a b : Rect) : Bool :=
  a.x + a.w > b.x && a.x < b.x + b.w && a.y + a.h > b.y && a.y < b.y + b.h

/-- Helper for `collidelist`: index counting starts at `k`. -/
def collidelistAux (r : Rect) (k : Int) : List Rect → Int
  | [] => -1
  | b :: bs => if colliderect r b then k else collidelistAux r (k + 1) bs

/-- `pygame.Rect.collidelist`: index of the first rectangle in the list
that collides with `r`, or `-1` when none does. -/
def collidelist (r : Rect) (l : List Rect) : Int :=
  collidelistAux r 0 l

/-! ### Pipes: `PipeObject` and `PipesManager`

A pipe image is an opaque surface handle plus a vertical-flip marker
(`pygame.transform.flip(img, False, True)` toggles the marker). -/

/-- An opaque pipe image: surface handle and whether it has been
vertically flipped. -/
structure Img where
  handle : Nat
  flippedV : Bool
deriving DecidableEq, Repr

/-- `pygame.transform.flip(img, False, True)`. -/
def flipV (i : Img) : Img :=
  { i with flippedV := !i.flippedV }

/-- A `PipeObject`: a sprite with position, size, the `passed_score`
flag, an optional image, and the `rect` top-left kept by
`RectObject.update`. -/
structure Pipe where
  x : ℚ
  y : ℚ
  width : ℚ
  height : ℚ
  passed_score : Bool
  image : Option Img
  rectX : ℚ
  rectY : ℚ
deriving DecidableEq, Repr

/-- The `rect` of a pipe (size never changes after construction). -/
def Pipe.rect (p : Pipe) : Rect :=
  { x := p.rectX, y := p.rectY, w := p.width, h := p.height }

/-- A `(top_pipe, bottom_pipe)` tuple from `PipesManager.pipes`.  The
`pid` field is a ghost identifier standing for Python object identity;
it never influences the dynamics. -/
structure PipePair where
  pid : Nat
  top : Pipe
  bottom : Pipe
deriving DecidableEq, Repr

/-- An entry of the manager's `children` list: the top or bottom sprite
of the pair with the given identity, or some non-pipe child. -/
inductive Child : Type where
  | top (i : Nat)
  | bot (i : Nat)
  | other (t : Nat)
deriving DecidableEq, Repr

/-- The mutable state of a `PipesManager`.  `next_id` is the ghost
supply of fresh pair identities. -/
structure PipesState where
  x_pos_score : ℚ
  score : Nat
  pipes : List PipePair
  pipe_image : Option Img
  pipe_speed : ℚ
  spawn_timer : ℚ
  spawn_interval : ℚ
  gap_height : ℚ
  pipe_width : ℚ
  children : List Child
  next_id : Nat
deriving DecidableEq, Repr

namespace PipesManager

/-- `PipesManager.spawn_pipe`, with the result of
`random.randint(50, height - gap_height - 50)` supplied as the oracle
`rnd` (the caller's hypotheses carry `randint`'s range contract).  A
fresh pair is appended to the pair list and its two sprites to the
children list; as in `RectObject.__init__`, each sprite's rect starts at
its local position (the parent reference is only set by `add_child`
afterwards). -/
def spawn_pipe (s : PipesState) (rnd : ℤ) : PipesState :=
  let top_height : ℚ := (rnd : ℚ)
  let bottom_height : ℚ := screenH - top_height - s.gap_height
  let x_spawn : ℚ := screenW
  let top_pipe : Pipe :=
    { x := x_spawn, y := 0, width := s.pipe_width, height := top_height
      passed_score := false
      image := s.pipe_image.map flipV
      rectX := x_spawn, rectY := 0 }
  let bottom_pipe : Pipe :=
    { x := x_spawn, y := top_height + s.gap_height, width := s.pipe_width
      height := bottom_height
      passed_score := false
      image := s.pipe_image
      rectX := x_spawn, rectY := top_height + s.gap_height }
  { s with
    pipes := s.pipes ++ [{ pid := s.next_id, top := top_pipe, bottom := bottom_pipe }]
    children := s.children ++ [Child.top s.next_id, Child.bot s.next_id]
    next_id := s.next_id + 1 }

/-- Both sprites of a pair shifted left by `pipe_speed * dt`, with their
rects re-synced by `PipeObject`'s inherited `RectObject.update` from the
manager's absolute position `(mx, my)`. -/
def movePair (speed dt mx my : ℚ) (pr : PipePair) : PipePair :=
  let mv : Pipe → Pipe := fun p =>
    let x1 := p.x - speed * dt
    { p with x := x1, rectX := mx + x1, rectY := my + p.y }
  { pr with top := mv pr.top, bottom := mv pr.bottom }

/-- The scoring step applied to a (just moved) pair: the first time the
top sprite's right edge is strictly left of `x_pos_score` its
`passed_score` flag is set. -/
def scorePair (sx : ℚ) (pr : PipePair) : PipePair :=
  if pr.top.passed_score = false ∧ pr.top.x + pr.top.width < sx then
    { pr with top := { pr.top with passed_score := true } }
  else pr

/-- The score increment a (just moved) pair produces. -/
def scoreInc (sx : ℚ) (pr : PipePair) : Nat :=
  if pr.top.passed_score = false ∧ pr.top.x + pr.top.width < sx then 1 else 0

/-- Mutation of one pair during one pass of the update loop: move, then
score. -/
def processPair (sx speed dt mx my : ℚ) (pr : PipePair) : PipePair :=
  scorePair sx (movePair speed dt mx my pr)

/-- A processed pair stays in the pair list unless its right edge is
strictly left of the screen. -/
def keepPair (pr : PipePair) : Bool :=
  !(pr.top.x + pr.top.width < 0 : Bool)

/-- Replace the first pair with identity `i` (the in-place mutation of
the Python object that both the iteration copy and `self.pipes`
reference). -/
def replaceById (i : Nat) (q : PipePair) : List PipePair → List PipePair
  | [] => []
  | p :: ps => if p.pid = i then q :: ps else p :: replaceById i q ps

/-- `self.pipes.remove(pair)`: drop the first pair with identity `i`
(Python equality on the tuple is object identity). -/
def eraseById (i : Nat) : List PipePair → List PipePair
  | [] => []
  | p :: ps => if p.pid = i then ps else p :: eraseById i ps

/-- The accumulator threaded through the update loop: the lists and
score that `PipesManager.update` mutates in place. -/
structure LoopAcc where
  pipes : List PipePair
  children : List Child
  score : Nat
deriving DecidableEq, Repr

/-- One iteration of `for pair in self.pipes[:]`: move both sprites,
re-sync their rects, award the score once, and on `top.x + top.width
< 0` remove the sprites from `children` and the pair from `pipes`
(each removal wrapped in try/except, hence a silent no-op when the
element is absent, which `List.erase` matches). -/
def loopStep (sx speed dt mx my : ℚ) (acc : LoopAcc) (pr : PipePair) : LoopAcc :=
  let q := processPair sx speed dt mx my pr
  let pipes1 := replaceById pr.pid q acc.pipes
  let score1 := acc.score + scoreInc sx (movePair speed dt mx my pr)
  if q.top.x + q.top.width < 0 then
    { pipes := eraseById pr.pid pipes1
      children := (acc.children.erase (Child.top pr.pid)).erase (Child.bot pr.pid)
      score := score1 }
  else
    { pipes := pipes1, children := acc.children, score := score1 }

/-- The state after the spawn phase of `PipesManager.update`: advance
`spawn_timer` by `dt` and, if it reached `spawn_interval`, subtract the
interval and spawn one pair. -/
def afterSpawn (s : PipesState) (dt : ℚ) (rnd : ℤ) : PipesState :=
  let s1 := { s with spawn_timer := s.spawn_timer + dt }
  if s1.spawn_timer ≥ s1.spawn_interval then
    spawn_pipe { s1 with spawn_timer := s1.spawn_timer - s1.spawn_interval } rnd
  else s1

/-- `PipesManager.update(dt)`: the spawn phase followed by the pass over
a copy of the pair list, with `(mx, my)` the manager's absolute position
(used only for rect syncing) and `rnd` the spawn oracle. -/
def update (s : PipesState) (dt : ℚ) (rnd : ℤ) (mx my : ℚ) : PipesState :=
  let s2 := afterSpawn s dt rnd
  let acc := List.foldl (loopStep s2.x_pos_score s2.pipe_speed dt mx my)
    { pipes := s2.pipes, children := s2.children, score := s2.score } s2.pipes
  { s2 with pipes := acc.pipes, children := acc.children, score := acc.score }

/-- `PipesManager.reset()`: drop every pair's sprites from `children`
(try/except around each removal), clear the pair list, and zero the
spawn timer and the score. -/
def reset (s : PipesState) : PipesState :=
  let children1 := s.pipes.foldl
    (fun ch pr => (ch.erase (Child.top pr.pid)).erase (Child.bot pr.pid)) s.children
  { s with pipes := [], children := children1, spawn_timer := 0, score := 0 }

/-- The early-return scan of `PipesManager.next_pipe_pos`: the gap
center of the first pair whose horizontal center is at or beyond
`effx`. -/
def nextPipeAux (gap effx : ℚ) : List PipePair → Option (ℚ × ℚ)
  | [] => none
  | pr :: rest =>
      let c := pr.top.x + pr.top.width / 2
      if c ≥ effx then some (c, pr.top.height + gap / 2)
      else nextPipeAux gap effx rest

/-- `PipesManager.next_pipe_pos(x_player_pos, offset)`: `(None, None)`
when there are no pairs; otherwise the gap center of the first pair
whose center is at or beyond `x_player_pos - offset`, falling back to
the last pair's gap. -/
def next_pipe_pos (s : PipesState) (x_player_pos offset : ℚ) : Option (ℚ × ℚ) :=
  match s.pipes with
  | [] => none
  | _ :: _ =>
    match nextPipeAux s.gap_height (x_player_pos - offset) s.pipes with
    | some r => some r
    | none =>
      match s.pipes.getLast? with
      | some lp => some (lp.top.x + lp.top.width / 2, lp.top.height + s.gap_height / 2)
      | none => none

end PipesManager

/-! ### The player: `PlayerObject.update` -/

/-- The mutable state of a `PlayerObject`: local position, vertical
velocity, the rect dimensions given to `RectObject`, the child sprite's
height (equal to `height` at construction, read by the ground clamp),
and the rect top-left kept by `RectObject.update`. -/
structure PlayerState where
  x : ℚ
  y : ℚ
  velocity_y : ℚ
  width : ℚ
  height : ℚ
  sprite_height : ℚ
  rectX : ℚ
  rectY : ℚ
deriving DecidableEq, Repr

/-- The rect of the player, assembled from its synced top-left and the
construction-time dimensions. -/
def PlayerState.rect (s : PlayerState) : Rect :=
  { x := s.rectX, y := s.rectY, w := s.width, h := s.height }

namespace PlayerObject

/-- The flat rect list `PlayerObject.update` builds from
`self.pipes_manager.pipes`: top rect then bottom rect of each pair, in
list order. -/
def pipeRectsOf (m : PipesState) : List Rect :=
  m.pipes.flatMap (fun pr => [pr.top.rect, pr.bottom.rect])

/-- `PlayerObject.update(dt)`.  Inputs: the parent's absolute position
`(px, py)` (for the inherited rect sync), whether the space key is held,
the pipes manager state (for the collision rects), `dt`, and the player
state.  Returns the new state and whether `on_lose` was invoked. -/
def update (px py : ℚ) (space : Bool) (m : PipesState) (dt : ℚ)
    (s : PlayerState) : PlayerState × Bool :=
  let s0 := { s with rectX := px + s.x, rectY := py + s.y }
  let v1 : ℚ := if space then -300 else s0.velocity_y
  let v2 : ℚ := v1 + 800 * dt
  let ground_level : ℚ := screenH - s0.sprite_height
  let new_pos : ℚ := s0.y + v2 * dt
  let yv : ℚ × ℚ :=
    if new_pos > ground_level then (ground_level, 0)
    else if new_pos < 0 then ((0 : ℚ), 0)
    else (new_pos, v2)
  let s1 := { s0 with y := yv.1, velocity_y := yv.2 }
  let idx := collidelist s1.rect (pipeRectsOf m)
  (s1, idx ≠ -1)

end PlayerObject

/-! ### The round controller: `EndScreenManager` -/

/-- A direct child of the `EndScreenManager`, carrying its own
`enabled` flag: the player, the pipes manager, or some other node. -/
inductive ESChild : Type where
  | playerC (enabled : Bool) (p : PlayerState)
  | pipesC (enabled : Bool) (m : PipesState)
  | otherC (enabled : Bool) (t : Nat)
deriving DecidableEq, Repr

/-- The `enabled` flag of an end-screen child. -/
def ESChild.enabled : ESChild → Bool
  | .playerC e _ => e
  | .pipesC e _ => e
  | .otherC e _ => e

/-- `GameObject.set_enable_children` applied to one child. -/
def ESChild.setEnabled (b : Bool) : ESChild → ESChild
  | .playerC _ p => .playerC b p
  | .pipesC _ m => .pipesC b m
  | .otherC _ t => .otherC b t

/-- The state of an `EndScreenManager`: the `is_game_over` flag and its
ordered children. -/
structure ESState where
  is_game_over : Bool
  children : List ESChild
deriving DecidableEq, Repr

namespace EndScreenManager

/-- `get_child_of_type(PlayerObject)`: the first player child. -/
def getPlayer? : List ESChild → Option PlayerState
  | [] => none
  | .playerC _ p :: _ => some p
  | _ :: rest => getPlayer? rest

/-- `get_child_of_type(PipesManager)`: the first pipes-manager child. -/
def getPipes? : List ESChild → Option PipesState
  | [] => none
  | .pipesC _ m :: _ => some m
  | _ :: rest => getPipes? rest

/-- Mutate the first player child in place; `none` when there is no
player child (the Python code would then raise on `pl.x = 100`). -/
def modifyPlayer (f : PlayerState → PlayerState) :
    List ESChild → Option (List ESChild)
  | [] => none
  | .playerC e p :: rest => some (.playerC e (f p) :: rest)
  | c :: rest => (modifyPlayer f rest).map (c :: ·)

/-- Mutate the first pipes-manager child in place; `none` when there is
none (the Python code would then raise on `pm.reset()`). -/
def modifyPipes (f : PipesState → PipesState) :
    List ESChild → Option (List ESChild)
  | [] => none
  | .pipesC e m :: rest => some (.pipesC e (f m) :: rest)
  | c :: rest => (modifyPipes f rest).map (c :: ·)

/-- `EndScreenManager.show_game_over`: set `is_game_over` and disable
every direct child. -/
def show_game_over (s : ESState) : ESState :=
  { is_game_over := true, children := s.children.map (ESChild.setEnabled false) }

/-- `EndScreenManager.update(dt)` with `rHeld` the sampled state of the
restart key.  Only while `is_game_over` does anything happen: on a held
restart key, clear the flag, re-enable every direct child, reset the
player's position and velocity to the spawn values, and reset the pipes
manager.  `none` models the attribute error raised when a required
typed child is missing. -/
def update (rHeld : Bool) (dt : ℚ) (s : ESState) : Option ESState :=
  if s.is_game_over then
    if rHeld then
      let ch0 := s.children.map (ESChild.setEnabled true)
      match modifyPlayer (fun p => { p with x := 100, y := 100, velocity_y := 0 }) ch0 with
      | none => none
      | some ch1 =>
        match modifyPipes PipesManager.reset ch1 with
        | none => none
        | some ch2 => some { is_game_over := false, children := ch2 }
    else some s
  else some s

end EndScreenManager

/-! ### Functional characterizations and run-level accounting

The definitions below describe, in map/filter/fold form, what one pass
of the imperative update loop of `PipesManager.update` computes; the
equivalence with the fold of `loopStep` is proved, not assumed. -/

namespace PipesManager

/-- The pair list after one pass, described functionally: every pair
processed exactly once, off-screen pairs dropped. -/
def pipesSpec (sx speed dt mx my : ℚ) (l : List PipePair) : List PipePair :=
  (l.map (processPair sx speed dt mx my)).filter keepPair

/-- The processed pairs that get culled during the pass, in order. -/
def culledSpec (sx speed dt mx my : ℚ) (l : List PipePair) : List PipePair :=
  (l.map (processPair sx speed dt mx my)).filter (fun q => !keepPair q)

/-- The total score increment of one pass. -/
def scoreSpec (sx speed dt mx my : ℚ) (l : List PipePair) : Nat :=
  (l.map (fun pr => scoreInc sx (movePair speed dt mx my pr))).sum

/-- Removal of the sprites of each pair of `culled` from a children
list, in order (shared by the culling branch of the update loop and by
`reset`). -/
def cullChildren (culled : List PipePair) (ch : List Child) : List Child :=
  culled.foldl (fun ch pr => (ch.erase (Child.top pr.pid)).erase (Child.bot pr.pid)) ch

/-- Whether a pair scores during the pass that moves it by
`speed * dt`: its flag is still clear and its moved right edge is
strictly left of the scoring line. -/
def scoresNow (sx speed dt mx my : ℚ) (pr : PipePair) : Bool :=
  !pr.top.passed_score && decide (pr.top.x - speed * dt + pr.top.width < sx)

/-- The identities of the pairs that score during one
`PipesManager.update` call. -/
def scoredIds (mx my : ℚ) (s : PipesState) (dt : ℚ) (rnd : ℤ) : List Nat :=
  ((afterSpawn s dt rnd).pipes.filter
    (scoresNow s.x_pos_score s.pipe_speed dt mx my)).map (·.pid)

/-- A sequence of `PipesManager.update` calls, each with its `dt` and
its spawn oracle. -/
def runPM (mx my : ℚ) : PipesState → List (ℚ × ℤ) → PipesState
  | s, [] => s
  | s, (dt, r) :: rest => runPM mx my (update s dt r mx my) rest

/-- How many times the pair with identity `i` causes a score increment
across a run. -/
def contribCount (mx my : ℚ) : PipesState → List (ℚ × ℤ) → Nat → Nat
  | _, [], _ => 0
  | s, (dt, r) :: rest, i =>
      (if i ∈ scoredIds mx my s dt r then 1 else 0) +
        contribCount mx my (update s dt r mx my) rest i

/-- Total number of score increments across a run. -/
def totalScore (mx my : ℚ) : PipesState → List (ℚ × ℤ) → Nat
  | _, [] => 0
  | s, (dt, r) :: rest =>
      (scoredIds mx my s dt r).length + totalScore mx my (update s dt r mx my) rest

/-- The identity `i` can never score again: every live pair with this
identity already has its flag set, and `i` is stale (below the fresh
supply), so no future spawn reuses it. -/
def Dead (s : PipesState) (i : Nat) : Prop :=
  (∀ pr ∈ s.pipes, pr.pid = i → pr.top.passed_score = true) ∧ i < s.next_id

/-- The structural well-formedness of a manager state: pair identities
are distinct and below the fresh supply, the children list is
duplicate-free, and every pipe sprite in it has a stale identity.  It
holds for the initial (empty) manager and is preserved by `update` and
`reset`. -/
structure Inv (s : PipesState) : Prop where
  pidsNodup : (s.pipes.map (·.pid)).Nodup
  pidsLt : ∀ pr ∈ s.pipes, pr.pid < s.next_id
  childNodup : s.children.Nodup
  childTopLt : ∀ i, Child.top i ∈ s.children → i < s.next_id
  childBotLt : ∀ i, Child.bot i ∈ s.children → i < s.next_id

end PipesManager

namespace PlayerObject

/-- A run of `PlayerObject.update` calls with the jump key never held
and the parent at the origin. -/
def runNoJump (m : PipesState) : PlayerState → List ℚ → PlayerState
  | s, [] => s
  | s, dt :: rest => runNoJump m (update 0 0 false m dt s).1 rest

/-- Whether a no-jump run never triggers the position clamp: at every
step the freshly integrated position already lies within
`[0, screenH - sprite_height]`. -/
def clampFree (m : PipesState) : PlayerState → List ℚ → Bool
  | _, [] => true
  | s, dt :: rest =>
      let v2 := s.velocity_y + 800 * dt
      let np := s.y + v2 * dt
      decide (np ≤ screenH - s.sprite_height) && decide (0 ≤ np) &&
        clampFree m (update 0 0 false m dt s).1 rest

end PlayerObject

/-! ### Concrete fixtures used by the witnesses -/

/-- A two-node tree whose root is disabled. -/
def demoTree : SNode :=
  .mk 0 false 5 [.mk 1 true 7 []]

/-- An enabled two-level tree. -/
def demoTree2 : SNode :=
  .mk 2 true 3 [.mk 3 false 4 [], .mk 4 true 6 []]

/-- A fresh pipes manager configured as in `main.py`
(`PipesManager(player_x_pos)` with `player_x_pos = 100`), with one
non-pipe child to exercise `reset`'s tolerance. -/
def pmDemo : PipesState :=
  { x_pos_score := 100, score := 0, pipes := [], pipe_image := none
    pipe_speed := 150, spawn_timer := 0, spawn_interval := 2
    gap_height := 150, pipe_width := 80
    children := [Child.other 7], next_id := 0 }

/-- The manager after two spawning updates: two live pairs. -/
def pmDemo2 : PipesState :=
  PipesManager.update (PipesManager.update pmDemo 2 200 0 0) 2 300 0 0

/-- A pipe sprite at a given position with the demo dimensions. -/
def pipeAt (x y h : ℚ) : Pipe :=
  { x := x, y := y, width := 80, height := h, passed_score := false
    image := none, rectX := x, rectY := y }

/-- A pair at a given horizontal position. -/
def pairAt (i : Nat) (x : ℚ) : PipePair :=
  { pid := i, top := pipeAt x 0 200, bottom := pipeAt x 350 250 }

/-- Three pairs staggered so that one sits just off-screen (the P4 test
fixture of the specification), plus one non-pipe child. -/
def pmCull : PipesState :=
  { pmDemo with
    pipes := [pairAt 0 (-90), pairAt 1 300, pairAt 2 600]
    children := [Child.other 9, Child.top 0, Child.bot 0, Child.top 1,
                 Child.bot 1, Child.top 2, Child.bot 2]
    next_id := 3 }

/-- The player as constructed in `main.py`:
`PlayerObject(100, 100, 50, 50, ...)`. -/
def pDemo : PlayerState :=
  { x := 100, y := 100, velocity_y := 0, width := 50, height := 50
    sprite_height := 50, rectX := 100, rectY := 100 }

/-- Eight equal time steps summing to one second. -/
def dts8 : List ℚ :=
  [1/8, 1/8, 1/8, 1/8, 1/8, 1/8, 1/8, 1/8]

/-- An end-screen manager in the game-over state owning a pipes
manager, a player and one other child, all disabled by
`show_game_over`. -/
def esDemo : ESState :=
  { is_game_over := true
    children := [ESChild.pipesC false pmDemo2, ESChild.playerC false pDemo,
                 ESChild.otherC false 3] }

/-! ## Theorems -/

mutual

/-- Rewriting `enabled` flags does not change the draw trace of a
node. -/
theorem drawTrace_mapEnabled (g : Nat → Bool → Bool) :
    (n : SNode) → drawTrace (mapEnabled g n) = drawTrace n
  | .mk i e s ch => by
      simp only [mapEnabled, drawTrace]
      rw [drawTraceL_mapEnabledL g ch]

/-- Rewriting `enabled` flags does not change the draw trace of a
forest. -/
theorem drawTraceL_mapEnabledL (g : Nat → Bool → Bool) :
    (l : List SNode) → drawTraceL (mapEnabledL g l) = drawTraceL l
  | [] => rfl
  | c :: cs => by
      simp only [mapEnabledL, drawTraceL]
      rw [drawTrace_mapEnabled g c, drawTraceL_mapEnabledL g cs]

end

/-- C1: a disabled node's `update_all` runs no update at all — neither
its own nor any descendant's, and no state in the subtree changes; an
enabled node's `update_all` runs its own update first and then the
children in insertion order; `draw_all` always draws the node first and
then every descendant in insertion order, unaffected by any rewriting
of the `enabled` flags in the subtree. -/
theorem update_all_draw_all_spec (f : ℚ → Nat → Int → Int)
    (g : Nat → Bool → Bool) (dt : ℚ) (n : SNode) :
    (n.enabled = false → update_all f dt n = n ∧ updateTrace n = []) ∧
    (n.enabled = true →
      update_all f dt n =
        SNode.mk n.nid true (f dt n.nid n.st) (update_allL f dt n.children) ∧
      updateTrace n = n.nid :: updateTraceL n.children) ∧
    drawTrace n = n.nid :: drawTraceL n.children ∧
    drawTrace (mapEnabled g n) = drawTrace n := by
  obtain ⟨i, e, s, ch⟩ := n
  refine ⟨?_, ?_, ?_, ?_⟩
  · intro h
    simp only [SNode.enabled] at h
    subst h
    simp [update_all, updateTrace]
  · intro h
    simp only [SNode.enabled] at h
    subst h
    simp [update_all, updateTrace, SNode.nid, SNode.st, SNode.children]
  · simp [drawTrace, SNode.nid, SNode.children]
  · exact drawTrace_mapEnabled g _

/-- Witness for C1 at a concrete disabled tree and a concrete enabled
tree: nothing in the disabled subtree changes and nothing is traced,
while flipping every flag leaves the draw trace intact. -/
theorem update_all_draw_all_witness :
    (update_all (fun _ _ s => s + 1) 1 demoTree = demoTree ∧
      updateTrace demoTree = []) ∧
    drawTrace (mapEnabled (fun _ e => !e) demoTree2) = drawTrace demoTree2 :=
  ⟨(update_all_draw_all_spec (fun _ _ s => s + 1) (fun _ e => !e) 1 demoTree).1 rfl,
    (update_all_draw_all_spec (fun _ _ s => s + 1) (fun _ e => !e) 1 demoTree2).2.2.2⟩

/-- C7: `get_abs_pos` returns the local position when there is no
parent, and the parent's absolute position plus the local position
otherwise; in particular, along any ownership chain the absolute
position of a node is its local position plus the absolute position of
its immediate parent. -/
theorem get_abs_pos_spec (p : PNode) (x y : ℚ) :
    get_abs_pos (.root x y) = (x, y) ∧
    get_abs_pos (.child p x y) =
      ((get_abs_pos p).1 + (PNode.localPos (.child p x y)).1,
       (get_abs_pos p).2 + (PNode.localPos (.child p x y)).2) := by
  exact ⟨rfl, rfl⟩

/-- C10: the collision flag produced by `PlayerObject.update` is
exactly a collision test of the rect synced from the actor's absolute
position at the start of the call — the position left over from the
previous frame — and not of the position the same call just integrated:
the flag only depends on the pre-call position, never on `dt` or the
jump key. -/
theorem collision_uses_stale_rect (px py dt : ℚ) (space : Bool)
    (m : PipesState) (s : PlayerState) :
    ((PlayerObject.update px py space m dt s).2 = true ↔
      collidelist { x := px + s.x, y := py + s.y, w := s.width, h := s.height }
        (PlayerObject.pipeRectsOf m) ≠ -1) ∧
    (PlayerObject.update px py space m dt s).1.rectX = px + s.x ∧
    (PlayerObject.update px py space m dt s).1.rectY = py + s.y := by
  refine ⟨?_, ?_, ?_⟩
  · simp [PlayerObject.update, PlayerState.rect]
  · simp [PlayerObject.update]
  · simp [PlayerObject.update]

namespace PipesManager

/-- The early-return scan of `next_pipe_pos` agrees with `List.find?`
over the same predicate. -/
theorem nextPipeAux_eq_find (gap effx : ℚ) (l : List PipePair) :
    nextPipeAux gap effx l =
      (l.find? (fun pr => decide (pr.top.x + pr.top.width / 2 ≥ effx))).map
        (fun pr => (pr.top.x + pr.top.width / 2, pr.top.height + gap / 2)) := by
  induction l with
  | nil => rfl
  | cons pr rest ih =>
      by_cases h : pr.top.x + pr.top.width / 2 ≥ effx
      · simp [nextPipeAux, List.find?, h]
      · simp [nextPipeAux, List.find?, h, ih]

/-- C6: `next_pipe_pos` returns the no-result sentinel exactly when the
pair list is empty (no exception is involved); otherwise it returns the
gap coordinates of the first pair in list order whose horizontal center
is at or beyond `player_x - offset`, the gap's vertical center being
`top.height + gap_height / 2`, and the last pair's gap when every
center is behind that threshold. -/
theorem next_pipe_pos_spec (s : PipesState) (x off : ℚ) :
    (next_pipe_pos s x off = none ↔ s.pipes = []) ∧
    (∀ pr, s.pipes.find?
        (fun pr => decide (pr.top.x + pr.top.width / 2 ≥ x - off)) = some pr →
      next_pipe_pos s x off =
        some (pr.top.x + pr.top.width / 2, pr.top.height + s.gap_height / 2)) ∧
    (s.pipes ≠ [] →
      s.pipes.find?
        (fun pr => decide (pr.top.x + pr.top.width / 2 ≥ x - off)) = none →
      ∃ lp, s.pipes.getLast? = some lp ∧
        next_pipe_pos s x off =
          some (lp.top.x + lp.top.width / 2, lp.top.height + s.gap_height / 2)) := by
  have haux := nextPipeAux_eq_find s.gap_height (x - off) s.pipes
  cases hp : s.pipes with
  | nil =>
      refine ⟨by simp [next_pipe_pos, hp], ?_, ?_⟩
      · intro pr hfind
        simp at hfind
      · intro hne
        exact absurd rfl hne
  | cons p0 rest =>
      rw [hp] at haux
      have hne : p0 :: rest ≠ [] := by simp
      have hlast : (p0 :: rest).getLast? = some ((p0 :: rest).getLast hne) :=
        List.getLast?_eq_getLast _ hne
      refine ⟨?_, ?_, ?_⟩
      · constructor
        · intro hcontra
          simp only [next_pipe_pos, hp] at hcontra
          rcases hr : nextPipeAux s.gap_height (x - off) (p0 :: rest) with _ | r
          · rw [hr, hlast] at hcontra
            simp at hcontra
          · rw [hr] at hcontra
            simp at hcontra
        · intro hcontra
          exact absurd hcontra hne
      · intro pr hfind
        rw [hfind] at haux
        simp only [Option.map_some'] at haux
        simp [next_pipe_pos, hp, haux]
      · intro _ hfind
        rw [hfind] at haux
        simp only [Option.map_none'] at haux
        refine ⟨(p0 :: rest).getLast hne, hlast, ?_⟩
        simp [next_pipe_pos, hp, haux, hlast]

/-- Witness for C6 on the staggered fixture: the first pair whose
center lies at or past the player's `x = 100` is the one at `x = 300`,
and its gap coordinates come back. -/
theorem next_pipe_pos_witness :
    next_pipe_pos pmCull 100 0 = some (340, 275) := by
  have hfind : pmCull.pipes.find?
      (fun pr => decide (pr.top.x + pr.top.width / 2 ≥ 100 - 0)) =
        some (pairAt 1 300) := by
    rw [show pmCull.pipes =
      [pairAt 0 (-90), pairAt 1 300, pairAt 2 600] from rfl]
    rw [List.find?_cons_of_neg _ (by norm_num [pairAt, pipeAt]),
      List.find?_cons_of_pos _ (by norm_num [pairAt, pipeAt])]
  rw [(next_pipe_pos_spec pmCull 100 0).2.1 (pairAt 1 300) hfind]
  norm_num [pairAt, pipeAt, pmCull, pmDemo]

theorem movePair_pid (speed dt mx my : ℚ) (pr : PipePair) :
    (movePair speed dt mx my pr).pid = pr.pid := rfl

theorem scorePair_pid (sx : ℚ) (pr : PipePair) :
    (scorePair sx pr).pid = pr.pid := by
  unfold scorePair
  split <;> rfl

theorem processPair_pid (sx speed dt mx my : ℚ) (pr : PipePair) :
    (processPair sx speed dt mx my pr).pid = pr.pid := by
  unfold processPair
  rw [scorePair_pid, movePair_pid]

theorem replaceById_append (done : List PipePair) (p q : PipePair)
    (rest : List PipePair) (h : ∀ r ∈ done, r.pid ≠ p.pid) :
    replaceById p.pid q (done ++ p :: rest) = done ++ q :: rest := by
  induction done with
  | nil => simp [replaceById]
  | cons d ds ih =>
      have hd : d.pid ≠ p.pid := h d (by simp)
      simp only [List.cons_append, replaceById, if_neg hd, List.append_eq]
      rw [ih (fun r hr => h r (by simp [hr]))]

theorem eraseById_append (done : List PipePair) (i : Nat) (q : PipePair)
    (rest : List PipePair) (h : ∀ r ∈ done, r.pid ≠ i) (hq : q.pid = i) :
    eraseById i (done ++ q :: rest) = done ++ rest := by
  induction done with
  | nil => simp [eraseById, hq]
  | cons d ds ih =>
      have hd : d.pid ≠ i := h d (by simp)
      simp only [List.cons_append, eraseById, if_neg hd, List.append_eq]
      rw [ih (fun r hr => h r (by simp [hr]))]

theorem keepPair_eq_false_iff (pr : PipePair) :
    keepPair pr = false ↔ pr.top.x + pr.top.width < 0 := by
  simp [keepPair]

/-- The imperative pass of `PipesManager.update` — a fold of `loopStep`
over a copy of the pair list, with in-place replacement and removal —
computes exactly the map/filter description: each pair is processed
once, culled pairs leave both lists, and the score increments add up. -/
theorem foldl_loopStep_spec (sx speed dt mx my : ℚ) :
    ∀ (todo done : List PipePair) (ch : List Child) (sc : Nat),
      (∀ p ∈ done, ∀ q ∈ todo, p.pid ≠ q.pid) →
      ((todo.map (·.pid)).Nodup) →
      List.foldl (loopStep sx speed dt mx my)
          { pipes := done ++ todo, children := ch, score := sc } todo =
        { pipes := done ++ pipesSpec sx speed dt mx my todo
          children := cullChildren (culledSpec sx speed dt mx my todo) ch
          score := sc + scoreSpec sx speed dt mx my todo } := by
  intro todo
  induction todo with
  | nil =>
      intro done ch sc _ _
      simp [pipesSpec, culledSpec, scoreSpec, cullChildren]
  | cons p rest ih =>
      intro done ch sc hdisj hnodup
      have hdone : ∀ r ∈ done, r.pid ≠ p.pid :=
        fun r hr => hdisj r hr p (by simp)
      have hq : (processPair sx speed dt mx my p).pid = p.pid :=
        processPair_pid sx speed dt mx my p
      have hrest : p.pid ∉ rest.map (·.pid) := by
        have := hnodup
        simp only [List.map_cons, List.nodup_cons] at this
        exact this.1
      have hnodup' : (rest.map (·.pid)).Nodup := by
        simp only [List.map_cons, List.nodup_cons] at hnodup
        exact hnodup.2
      simp only [List.foldl_cons]
      by_cases hcull :
          (processPair sx speed dt mx my p).top.x +
            (processPair sx speed dt mx my p).top.width < 0
      · have hstep :
            loopStep sx speed dt mx my
                { pipes := done ++ p :: rest, children := ch, score := sc } p =
              { pipes := done ++ rest
                children := (ch.erase (Child.top p.pid)).erase (Child.bot p.pid)
                score := sc + scoreInc sx (movePair speed dt mx my p) } := by
          simp only [loopStep, if_pos hcull]
          congr 1
          rw [replaceById_append done p _ rest hdone]
          exact eraseById_append done p.pid _ rest hdone hq
        rw [hstep]
        rw [ih done _ _ (fun a ha b hb => hdisj a ha b (by simp [hb])) hnodup']
        have hkeep : keepPair (processPair sx speed dt mx my p) = false :=
          (keepPair_eq_false_iff _).2 hcull
        simp only [pipesSpec, culledSpec, scoreSpec, List.map_cons,
          List.filter_cons, hkeep, List.sum_cons, cullChildren,
          List.foldl_cons, Bool.not_false, if_neg, Bool.false_eq_true,
          not_false_eq_true, if_true, hq, LoopAcc.mk.injEq]
        exact ⟨trivial, trivial, by omega⟩
      · have hstep :
            loopStep sx speed dt mx my
                { pipes := done ++ p :: rest, children := ch, score := sc } p =
              { pipes := done ++ processPair sx speed dt mx my p :: rest
                children := ch
                score := sc + scoreInc sx (movePair speed dt mx my p) } := by
          simp only [loopStep, if_neg hcull]
          congr 1
          rw [replaceById_append done p _ rest hdone]
        rw [hstep]
        have hdisj' : ∀ a ∈ done ++ [processPair sx speed dt mx my p],
            ∀ b ∈ rest, a.pid ≠ b.pid := by
          intro a ha b hb
          rcases List.mem_append.1 ha with ha | ha
          · exact hdisj a ha b (by simp [hb])
          · have : a = processPair sx speed dt mx my p := by simpa using ha
            subst this
            rw [hq]
            intro hcontra
            exact hrest (by rw [hcontra]; exact List.mem_map_of_mem _ hb)
        have := ih (done ++ [processPair sx speed dt mx my p]) ch
          (sc + scoreInc sx (movePair speed dt mx my p)) hdisj' hnodup'
        rw [List.append_assoc] at this
        simp only [List.singleton_append] at this
        rw [this]
        have hkeep : keepPair (processPair sx speed dt mx my p) = true := by
          rcases Bool.eq_false_or_eq_true (keepPair (processPair sx speed dt mx my p)) with h | h
          · exact h
          · exact absurd ((keepPair_eq_false_iff _).1 h) hcull
        simp only [pipesSpec, culledSpec, scoreSpec, List.map_cons,
          List.filter_cons, hkeep, if_pos, List.sum_cons, cullChildren,
          Bool.not_true, Bool.false_eq_true, if_neg, not_false_eq_true,
          List.cons_append, List.append_assoc, List.singleton_append,
          List.nil_append, LoopAcc.mk.injEq]
        exact ⟨trivial, trivial, by omega⟩

/-- `PipesManager.update` in closed form: after the spawn phase, the
pair list is the processed-and-culled list, the children lose exactly
the culled sprites, the score gains one per newly passed pair, and no
other field moves. -/
theorem update_spec (s : PipesState) (dt : ℚ) (rnd : ℤ) (mx my : ℚ)
    (h : ((afterSpawn s dt rnd).pipes.map (·.pid)).Nodup) :
    update s dt rnd mx my =
      { afterSpawn s dt rnd with
        pipes := pipesSpec (afterSpawn s dt rnd).x_pos_score
          (afterSpawn s dt rnd).pipe_speed dt mx my (afterSpawn s dt rnd).pipes
        children := cullChildren
          (culledSpec (afterSpawn s dt rnd).x_pos_score
            (afterSpawn s dt rnd).pipe_speed dt mx my (afterSpawn s dt rnd).pipes)
          (afterSpawn s dt rnd).children
        score := (afterSpawn s dt rnd).score +
          scoreSpec (afterSpawn s dt rnd).x_pos_score
            (afterSpawn s dt rnd).pipe_speed dt mx my (afterSpawn s dt rnd).pipes } := by
  have hfold := foldl_loopStep_spec (afterSpawn s dt rnd).x_pos_score
      (afterSpawn s dt rnd).pipe_speed dt mx my (afterSpawn s dt rnd).pipes []
      (afterSpawn s dt rnd).children (afterSpawn s dt rnd).score
      (by intro p hp q hq; simp at hp) h
  simp only [List.nil_append] at hfold
  unfold update
  dsimp only
  rw [hfold]

theorem mem_pipesSpec (sx speed dt mx my : ℚ) (l : List PipePair) (r : PipePair)
    (h : r ∈ pipesSpec sx speed dt mx my l) :
    ∃ pr ∈ l, r = processPair sx speed dt mx my pr ∧ keepPair r = true := by
  unfold pipesSpec at h
  obtain ⟨hmem, hkeep⟩ := List.mem_filter.1 h
  obtain ⟨pr, hpr, hEq⟩ := List.mem_map.1 hmem
  exact ⟨pr, hpr, hEq.symm, hkeep⟩

theorem mem_culledSpec (sx speed dt mx my : ℚ) (l : List PipePair) (r : PipePair)
    (h : r ∈ culledSpec sx speed dt mx my l) :
    ∃ pr ∈ l, r = processPair sx speed dt mx my pr ∧ keepPair r = false := by
  unfold culledSpec at h
  obtain ⟨hmem, hkeep⟩ := List.mem_filter.1 h
  obtain ⟨pr, hpr, hEq⟩ := List.mem_map.1 hmem
  exact ⟨pr, hpr, hEq.symm, by simpa using hkeep⟩

theorem pipesSpec_pids_sublist (sx speed dt mx my : ℚ) (l : List PipePair) :
    ((pipesSpec sx speed dt mx my l).map (·.pid)).Sublist (l.map (·.pid)) := by
  have h1 : (pipesSpec sx speed dt mx my l).Sublist
      (l.map (processPair sx speed dt mx my)) := List.filter_sublist _
  have h2 := h1.map (·.pid)
  rwa [List.map_map, show ((·.pid) ∘ processPair sx speed dt mx my) = (·.pid) from
    funext fun pr => processPair_pid sx speed dt mx my pr] at h2

theorem Inv_spawn_pipe (s : PipesState) (rnd : ℤ) (h : Inv s) :
    Inv (spawn_pipe s rnd) := by
  obtain ⟨h1, h2, h3, h4, h5⟩ := h
  refine ⟨?_, ?_, ?_, ?_, ?_⟩
  · simp only [spawn_pipe, List.map_append, List.map_cons, List.map_nil]
    rw [List.nodup_append]
    refine ⟨h1, List.nodup_singleton _, ?_⟩
    intro a ha hb
    obtain ⟨pr, hpr, hEq⟩ := List.mem_map.1 ha
    simp only [List.mem_singleton] at hb
    subst hb
    exact absurd (hEq ▸ h2 pr hpr) (lt_irrefl _)
  · intro pr hpr
    simp only [spawn_pipe, List.mem_append, List.mem_singleton] at hpr
    rcases hpr with hpr | hpr
    · exact Nat.lt_succ_of_lt (h2 pr hpr)
    · subst hpr
      exact Nat.lt_succ_self _
  · simp only [spawn_pipe]
    rw [List.nodup_append]
    refine ⟨h3, by simp, ?_⟩
    intro a ha hb
    simp only [List.mem_cons, List.mem_singleton, List.not_mem_nil, or_false] at hb
    rcases hb with hb | hb <;> subst hb
    · exact absurd (h4 _ ha) (lt_irrefl _)
    · exact absurd (h5 _ ha) (lt_irrefl _)
  · intro i hi
    simp only [spawn_pipe, List.mem_append, List.mem_cons, List.mem_singleton,
      List.not_mem_nil, or_false] at hi
    rcases hi with hi | hi | hi
    · exact Nat.lt_succ_of_lt (h4 i hi)
    · cases hi
      exact Nat.lt_succ_self _
    · cases hi
  · intro i hi
    simp only [spawn_pipe, List.mem_append, List.mem_cons, List.mem_singleton,
      List.not_mem_nil, or_false] at hi
    rcases hi with hi | hi | hi
    · exact Nat.lt_succ_of_lt (h5 i hi)
    · cases hi
    · cases hi
      exact Nat.lt_succ_self _

theorem Inv_afterSpawn (s : PipesState) (dt : ℚ) (rnd : ℤ) (h : Inv s) :
    Inv (afterSpawn s dt rnd) := by
  unfold afterSpawn
  dsimp only
  split
  · exact Inv_spawn_pipe _ rnd ⟨h.pidsNodup, h.pidsLt, h.childNodup, h.childTopLt, h.childBotLt⟩
  · exact ⟨h.pidsNodup, h.pidsLt, h.childNodup, h.childTopLt, h.childBotLt⟩

theorem cullChildren_subset (cl : List PipePair) :
    ∀ (ch : List Child) (x : Child), x ∈ cullChildren cl ch → x ∈ ch := by
  induction cl with
  | nil => intro ch x hx; exact hx
  | cons c cls ih =>
      intro ch x hx
      have hx' := ih _ x hx
      exact List.mem_of_mem_erase (List.mem_of_mem_erase hx')

theorem cullChildren_nodup (cl : List PipePair) :
    ∀ (ch : List Child), ch.Nodup → (cullChildren cl ch).Nodup := by
  induction cl with
  | nil => intro ch h; exact h
  | cons c cls ih =>
      intro ch h
      exact ih _ ((h.erase _).erase _)

theorem cullChildren_not_mem (cl : List PipePair) :
    ∀ (ch : List Child), ch.Nodup → ∀ pr ∈ cl,
      Child.top pr.pid ∉ cullChildren cl ch ∧
      Child.bot pr.pid ∉ cullChildren cl ch := by
  induction cl with
  | nil =>
      intro ch _ pr hpr
      cases hpr
  | cons c cls ih =>
      intro ch hch pr hpr
      rcases List.mem_cons.1 hpr with hpr | hpr
      · subst hpr
        have htop : Child.top pr.pid ∉ (ch.erase (Child.top pr.pid)).erase (Child.bot pr.pid) := by
          intro hmem
          exact hch.not_mem_erase (List.mem_of_mem_erase hmem)
        have hbot : Child.bot pr.pid ∉ (ch.erase (Child.top pr.pid)).erase (Child.bot pr.pid) := by
          intro hmem
          exact (hch.erase _).not_mem_erase hmem
        constructor
        · intro hmem
          exact htop (cullChildren_subset cls _ _ hmem)
        · intro hmem
          exact hbot (cullChildren_subset cls _ _ hmem)
      · exact ih _ ((hch.erase _).erase _) pr hpr

theorem cullChildren_mem (cl : List PipePair) :
    ∀ (ch : List Child) (x : Child), x ∈ ch →
      (∀ pr ∈ cl, x ≠ Child.top pr.pid ∧ x ≠ Child.bot pr.pid) →
      x ∈ cullChildren cl ch := by
  induction cl with
  | nil => intro ch x hx _; exact hx
  | cons c cls ih =>
      intro ch x hx hne
      have hc := hne c (by simp)
      refine ih _ x ?_ (fun pr hpr => hne pr (by simp [hpr]))
      exact (List.mem_erase_of_ne hc.2).2 ((List.mem_erase_of_ne hc.1).2 hx)

theorem Inv_update (s : PipesState) (dt : ℚ) (rnd : ℤ) (mx my : ℚ)
    (h : Inv s) : Inv (update s dt rnd mx my) := by
  have h2 := Inv_afterSpawn s dt rnd h
  rw [update_spec s dt rnd mx my h2.pidsNodup]
  refine ⟨?_, ?_, ?_, ?_, ?_⟩
  · exact h2.pidsNodup.sublist (pipesSpec_pids_sublist _ _ dt mx my _)
  · intro pr hpr
    obtain ⟨pr0, hpr0, hEq, _⟩ := mem_pipesSpec _ _ dt mx my _ pr hpr
    have := h2.pidsLt pr0 hpr0
    rw [hEq, processPair_pid]
    exact this
  · exact cullChildren_nodup _ _ h2.childNodup
  · intro i hi
    exact h2.childTopLt i (cullChildren_subset _ _ _ hi)
  · intro i hi
    exact h2.childBotLt i (cullChildren_subset _ _ _ hi)

theorem scorePair_top_x (sx : ℚ) (q : PipePair) :
    (scorePair sx q).top.x = q.top.x := by
  unfold scorePair
  split <;> rfl

theorem scorePair_top_width (sx : ℚ) (q : PipePair) :
    (scorePair sx q).top.width = q.top.width := by
  unfold scorePair
  split <;> rfl

theorem scorePair_bottom (sx : ℚ) (q : PipePair) :
    (scorePair sx q).bottom = q.bottom := by
  unfold scorePair
  split <;> rfl

/-- C3: every `PipesManager.update` call advances `spawn_timer` by
`dt`; when this makes it reach `spawn_interval`, the interval is
subtracted (the remainder is kept, not reset to zero) and exactly one
new pair is appended, spawned at the right edge `x = width`, its upper
height equal to the `randint(50, height - gap_height - 50)` draw and
its lower height completing `upper + gap_height + lower = height`;
otherwise the pair list is left as it was. -/
theorem spawn_spec (s : PipesState) (dt : ℚ) (rnd : ℤ) (mx my : ℚ)
    (h1 : (50 : ℚ) ≤ (rnd : ℚ)) (h2 : (rnd : ℚ) ≤ screenH - s.gap_height - 50) :
    (update s dt rnd mx my).spawn_timer = (afterSpawn s dt rnd).spawn_timer ∧
    (s.spawn_timer + dt < s.spawn_interval →
      (afterSpawn s dt rnd).spawn_timer = s.spawn_timer + dt ∧
      (afterSpawn s dt rnd).pipes = s.pipes) ∧
    (s.spawn_timer + dt ≥ s.spawn_interval →
      (afterSpawn s dt rnd).spawn_timer = s.spawn_timer + dt - s.spawn_interval ∧
      ∃ pr, (afterSpawn s dt rnd).pipes = s.pipes ++ [pr] ∧
        pr.top.x = screenW ∧ pr.bottom.x = screenW ∧
        pr.top.y = 0 ∧ pr.bottom.y = pr.top.height + s.gap_height ∧
        pr.top.height = (rnd : ℚ) ∧
        50 ≤ pr.top.height ∧ pr.top.height ≤ screenH - s.gap_height - 50 ∧
        pr.top.height + s.gap_height + pr.bottom.height = screenH) := by
  refine ⟨rfl, ?_, ?_⟩
  · intro hlt
    unfold afterSpawn
    dsimp only
    rw [if_neg (not_le.2 hlt)]
    exact ⟨rfl, rfl⟩
  · intro hge
    unfold afterSpawn
    dsimp only
    rw [if_pos hge]
    refine ⟨rfl, ?_⟩
    refine ⟨_, rfl, rfl, rfl, rfl, rfl, rfl, h1, h2, ?_⟩
    dsimp only [spawn_pipe]
    ring

/-- Witness for C3 at the fresh manager with `dt` past the interval:
the timer keeps the remainder and the spawned pair at `x = 800`
satisfies the height invariant. -/
theorem spawn_spec_witness :
    pmDemo.spawn_timer + 3 ≥ pmDemo.spawn_interval ∧
    (PipesManager.afterSpawn pmDemo 3 200).spawn_timer =
      pmDemo.spawn_timer + 3 - pmDemo.spawn_interval ∧
    ∃ pr, (PipesManager.afterSpawn pmDemo 3 200).pipes = pmDemo.pipes ++ [pr] ∧
      pr.top.x = screenW ∧ pr.bottom.x = screenW ∧
      pr.top.y = 0 ∧ pr.bottom.y = pr.top.height + pmDemo.gap_height ∧
      pr.top.height = ((200 : ℤ) : ℚ) ∧
      50 ≤ pr.top.height ∧ pr.top.height ≤ screenH - pmDemo.gap_height - 50 ∧
      pr.top.height + pmDemo.gap_height + pr.bottom.height = screenH :=
  ⟨by norm_num [pmDemo],
    (spawn_spec pmDemo 3 200 0 0 (by norm_num)
      (by norm_num [pmDemo, screenH])).2.2 (by norm_num [pmDemo])⟩

/-- C4: in one `PipesManager.update` call, the resulting pair list is
exactly the one-pass map/filter of the post-spawn list (so removal
neither skips nor double-processes any pair); a pair whose moved right
edge is below `0` disappears from the pair list and both of its sprites
leave the children list in that same call; every other pair survives,
translated left by exactly `pipe_speed * dt` once, and non-pipe
children are untouched. -/
theorem culling_spec (s : PipesState) (dt : ℚ) (rnd : ℤ) (mx my : ℚ)
    (hInv : Inv s) :
    (update s dt rnd mx my).pipes =
      pipesSpec (afterSpawn s dt rnd).x_pos_score (afterSpawn s dt rnd).pipe_speed
        dt mx my (afterSpawn s dt rnd).pipes ∧
    (∀ pr ∈ (afterSpawn s dt rnd).pipes,
      (processPair (afterSpawn s dt rnd).x_pos_score (afterSpawn s dt rnd).pipe_speed
          dt mx my pr).top.x = pr.top.x - (afterSpawn s dt rnd).pipe_speed * dt ∧
      (processPair (afterSpawn s dt rnd).x_pos_score (afterSpawn s dt rnd).pipe_speed
          dt mx my pr).bottom.x = pr.bottom.x - (afterSpawn s dt rnd).pipe_speed * dt ∧
      (keepPair (processPair (afterSpawn s dt rnd).x_pos_score
          (afterSpawn s dt rnd).pipe_speed dt mx my pr) = false →
        (∀ r ∈ (update s dt rnd mx my).pipes, r.pid ≠ pr.pid) ∧
        Child.top pr.pid ∉ (update s dt rnd mx my).children ∧
        Child.bot pr.pid ∉ (update s dt rnd mx my).children) ∧
      (keepPair (processPair (afterSpawn s dt rnd).x_pos_score
          (afterSpawn s dt rnd).pipe_speed dt mx my pr) = true →
        processPair (afterSpawn s dt rnd).x_pos_score (afterSpawn s dt rnd).pipe_speed
          dt mx my pr ∈ (update s dt rnd mx my).pipes)) ∧
    (∀ c ∈ (afterSpawn s dt rnd).children,
      (∀ pr ∈ (afterSpawn s dt rnd).pipes,
        c ≠ Child.top pr.pid ∧ c ≠ Child.bot pr.pid) →
      c ∈ (update s dt rnd mx my).children) := by
  have h2 := Inv_afterSpawn s dt rnd hInv
  have hspec := update_spec s dt rnd mx my h2.pidsNodup
  refine ⟨by rw [hspec], ?_, ?_⟩
  · intro pr hpr
    refine ⟨?_, ?_, ?_, ?_⟩
    · unfold processPair
      rw [scorePair_top_x]
      rfl
    · unfold processPair
      rw [scorePair_bottom]
      rfl
    · intro hcull
      have hmemculled : processPair (afterSpawn s dt rnd).x_pos_score
          (afterSpawn s dt rnd).pipe_speed dt mx my pr ∈
          culledSpec (afterSpawn s dt rnd).x_pos_score
            (afterSpawn s dt rnd).pipe_speed dt mx my (afterSpawn s dt rnd).pipes := by
        unfold culledSpec
        refine List.mem_filter.2 ⟨List.mem_map_of_mem _ hpr, by simp [hcull]⟩
      refine ⟨?_, ?_, ?_⟩
      · intro r hr hEq
        rw [hspec] at hr
        dsimp only at hr
        obtain ⟨pr', hpr', hEq', hkeep'⟩ := mem_pipesSpec _ _ dt mx my _ r hr
        have hpid : pr'.pid = pr.pid := by
          rw [hEq', processPair_pid] at hEq
          exact hEq
        have : pr' = pr := List.inj_on_of_nodup_map h2.pidsNodup hpr' hpr hpid
        subst this
        rw [← hEq'] at hcull
        rw [hkeep'] at hcull
        cases hcull
      · rw [hspec]
        dsimp only
        have := cullChildren_not_mem _ _ h2.childNodup _ hmemculled
        rw [processPair_pid] at this
        exact this.1
      · rw [hspec]
        dsimp only
        have := cullChildren_not_mem _ _ h2.childNodup _ hmemculled
        rw [processPair_pid] at this
        exact this.2
    · intro hkeep
      rw [hspec]
      dsimp only
      unfold pipesSpec
      exact List.mem_filter.2 ⟨List.mem_map_of_mem _ hpr, hkeep⟩
  · intro c hc hne
    rw [hspec]
    dsimp only
    refine cullChildren_mem _ _ c hc ?_
    intro q hq
    obtain ⟨pr', hpr', hEq', _⟩ := mem_culledSpec _ _ dt mx my _ q hq
    have := hne pr' hpr'
    rw [hEq', processPair_pid]
    exact this

/-- The staggered fixture satisfies the manager invariant. -/
theorem pmCull_inv : Inv pmCull := by
  refine ⟨by decide, by decide, by decide, ?_, ?_⟩
  · intro i hi
    simp only [pmCull, pmDemo, List.mem_cons, List.not_mem_nil, or_false] at hi
    rcases hi with h | h | h | h | h | h | h <;> first | cases h; decide | cases h
  · intro i hi
    simp only [pmCull, pmDemo, List.mem_cons, List.not_mem_nil, or_false] at hi
    rcases hi with h | h | h | h | h | h | h <;> first | cases h; decide | cases h

/-- When the advanced timer stays below the interval, the spawn phase
only advances the timer. -/
theorem afterSpawn_no_spawn (s : PipesState) (dt : ℚ) (rnd : ℤ)
    (h : s.spawn_timer + dt < s.spawn_interval) :
    afterSpawn s dt rnd = { s with spawn_timer := s.spawn_timer + dt } := by
  unfold afterSpawn
  dsimp only
  rw [if_neg (not_le.2 h)]

/-- Witness for C4 on the staggered fixture: after one update with
`dt = 1` the off-screen pair is gone from the pair list and its two
sprites are gone from the children list. -/
theorem culling_spec_witness :
    (∀ r ∈ (update pmCull 1 57 0 0).pipes, r.pid ≠ (pairAt 0 (-90)).pid) ∧
    Child.top (pairAt 0 (-90)).pid ∉ (update pmCull 1 57 0 0).children ∧
    Child.bot (pairAt 0 (-90)).pid ∉ (update pmCull 1 57 0 0).children :=
  ((culling_spec pmCull 1 57 0 0 pmCull_inv).2.1 (pairAt 0 (-90))
    (by rw [afterSpawn_no_spawn pmCull 1 57 (by norm_num [pmCull, pmDemo])]
        simp [pmCull])).2.2.1
    (by rw [afterSpawn_no_spawn pmCull 1 57 (by norm_num [pmCull, pmDemo])]
        norm_num [keepPair, processPair, scorePair, movePair, pairAt, pipeAt,
          pmCull, pmDemo])

/-- C8: `reset` empties the pair list, removes every pair's two sprites
from the children sequence, zeroes `spawn_timer` and `score`, keeps the
configuration (`spawn_interval`, `gap_height`, `pipe_speed`,
`pipe_width`, the scoring line and the shared pipe image) and keeps all
non-pipe children. -/
theorem reset_spec (s : PipesState) (hc : s.children.Nodup) :
    (reset s).pipes = [] ∧ (reset s).spawn_timer = 0 ∧ (reset s).score = 0 ∧
    (reset s).spawn_interval = s.spawn_interval ∧
    (reset s).gap_height = s.gap_height ∧
    (reset s).pipe_speed = s.pipe_speed ∧
    (reset s).pipe_width = s.pipe_width ∧
    (reset s).pipe_image = s.pipe_image ∧
    (reset s).x_pos_score = s.x_pos_score ∧
    (∀ pr ∈ s.pipes, Child.top pr.pid ∉ (reset s).children ∧
      Child.bot pr.pid ∉ (reset s).children) ∧
    (∀ c ∈ s.children,
      (∀ pr ∈ s.pipes, c ≠ Child.top pr.pid ∧ c ≠ Child.bot pr.pid) →
      c ∈ (reset s).children) := by
  have hch : (reset s).children = cullChildren s.pipes s.children := rfl
  refine ⟨rfl, rfl, rfl, rfl, rfl, rfl, rfl, rfl, rfl, ?_, ?_⟩
  · intro pr hpr
    rw [hch]
    exact cullChildren_not_mem _ _ hc pr hpr
  · intro c hcm hne
    rw [hch]
    exact cullChildren_mem _ _ c hcm hne

/-- Witness for C8 on the staggered fixture: after `reset` the pair
list is empty, timer and score are zero, a pipe sprite is gone and the
non-pipe child remains. -/
theorem reset_spec_witness :
    (reset pmCull).pipes = [] ∧ (reset pmCull).spawn_timer = 0 ∧
    (reset pmCull).score = 0 ∧
    (reset pmCull).gap_height = pmCull.gap_height ∧
    (Child.top (pairAt 1 300).pid ∉ (reset pmCull).children ∧
      Child.bot (pairAt 1 300).pid ∉ (reset pmCull).children) ∧
    Child.other 9 ∈ (reset pmCull).children := by
  have h := reset_spec pmCull (by decide)
  exact ⟨h.1, h.2.1, h.2.2.1, h.2.2.2.2.1,
    h.2.2.2.2.2.2.2.2.2.1 (pairAt 1 300) (by decide),
    h.2.2.2.2.2.2.2.2.2.2 (Child.other 9) (by decide) (by decide)⟩

theorem afterSpawn_score (s : PipesState) (dt : ℚ) (rnd : ℤ) :
    (afterSpawn s dt rnd).score = s.score := by
  unfold afterSpawn
  dsimp only
  split <;> rfl

theorem afterSpawn_x_pos_score (s : PipesState) (dt : ℚ) (rnd : ℤ) :
    (afterSpawn s dt rnd).x_pos_score = s.x_pos_score := by
  unfold afterSpawn
  dsimp only
  split <;> rfl

theorem afterSpawn_pipe_speed (s : PipesState) (dt : ℚ) (rnd : ℤ) :
    (afterSpawn s dt rnd).pipe_speed = s.pipe_speed := by
  unfold afterSpawn
  dsimp only
  split <;> rfl

theorem afterSpawn_next_id_le (s : PipesState) (dt : ℚ) (rnd : ℤ) :
    s.next_id ≤ (afterSpawn s dt rnd).next_id := by
  unfold afterSpawn
  dsimp only
  split
  · dsimp only [spawn_pipe]
    exact Nat.le_succ _
  · exact le_refl _

theorem update_next_id (s : PipesState) (dt : ℚ) (rnd : ℤ) (mx my : ℚ) :
    (update s dt rnd mx my).next_id = (afterSpawn s dt rnd).next_id := rfl

theorem mem_afterSpawn_pipes (s : PipesState) (dt : ℚ) (rnd : ℤ)
    (pr : PipePair) (h : pr ∈ (afterSpawn s dt rnd).pipes) :
    pr ∈ s.pipes ∨ pr.pid = s.next_id := by
  unfold afterSpawn at h
  dsimp only at h
  split at h
  · dsimp only [spawn_pipe] at h
    rcases List.mem_append.1 h with h | h
    · exact Or.inl h
    · right
      simp only [List.mem_singleton] at h
      rw [h]
  · exact Or.inl h

theorem scoreInc_movePair (sx speed dt mx my : ℚ) (pr : PipePair) :
    scoreInc sx (movePair speed dt mx my pr) =
      if scoresNow sx speed dt mx my pr = true then 1 else 0 := by
  unfold scoreInc movePair scoresNow
  dsimp only
  by_cases hp : pr.top.passed_score = false
  · by_cases hlt : pr.top.x - speed * dt + pr.top.width < sx
    · rw [if_pos ⟨hp, hlt⟩, if_pos (by simp [hp, hlt])]
    · rw [if_neg (fun hc => hlt hc.2), if_neg (by simp [hlt])]
  · have hp2 : pr.top.passed_score = true := by
      rcases Bool.eq_false_or_eq_true pr.top.passed_score with h | h
      · exact h
      · exact absurd h hp
    rw [if_neg (fun hc => hp hc.1), if_neg (by simp [hp2])]

theorem scoreSpec_eq_length_filter (sx speed dt mx my : ℚ) (l : List PipePair) :
    scoreSpec sx speed dt mx my l =
      (l.filter (scoresNow sx speed dt mx my)).length := by
  induction l with
  | nil => rfl
  | cons p rest ih =>
      simp only [scoreSpec, List.map_cons, List.sum_cons, List.filter_cons] at ih ⊢
      rw [scoreInc_movePair]
      by_cases h : scoresNow sx speed dt mx my p = true
      · rw [if_pos h, if_pos h, List.length_cons, ih]
        omega
      · rw [if_neg h, if_neg h, ih]
        omega

theorem mem_scoredIds_iff (mx my : ℚ) (s : PipesState) (dt : ℚ) (rnd : ℤ)
    (i : Nat) :
    i ∈ scoredIds mx my s dt rnd ↔
      ∃ pr ∈ (afterSpawn s dt rnd).pipes, pr.pid = i ∧
        scoresNow s.x_pos_score s.pipe_speed dt mx my pr = true := by
  unfold scoredIds
  constructor
  · intro h
    obtain ⟨pr, hpr, hpid⟩ := List.mem_map.1 h
    obtain ⟨hmem, hscore⟩ := List.mem_filter.1 hpr
    exact ⟨pr, hmem, hpid, hscore⟩
  · rintro ⟨pr, hmem, hpid, hscore⟩
    exact List.mem_map.2 ⟨pr, List.mem_filter.2 ⟨hmem, hscore⟩, hpid⟩

theorem update_score (s : PipesState) (dt : ℚ) (rnd : ℤ) (mx my : ℚ)
    (hInv : Inv s) :
    (update s dt rnd mx my).score =
      s.score + (scoredIds mx my s dt rnd).length := by
  have h2 := Inv_afterSpawn s dt rnd hInv
  rw [update_spec s dt rnd mx my h2.pidsNodup]
  dsimp only
  rw [afterSpawn_score, afterSpawn_x_pos_score, afterSpawn_pipe_speed,
    scoreSpec_eq_length_filter]
  unfold scoredIds
  rw [List.length_map]

theorem processPair_passed_of_true (sx speed dt mx my : ℚ) (pr : PipePair)
    (h : pr.top.passed_score = true) :
    (processPair sx speed dt mx my pr).top.passed_score = true := by
  unfold processPair scorePair
  by_cases hc : (movePair speed dt mx my pr).top.passed_score = false ∧
      (movePair speed dt mx my pr).top.x + (movePair speed dt mx my pr).top.width <
        sx
  · rw [if_pos hc]
  · rw [if_neg hc]
    unfold movePair
    dsimp only
    exact h

theorem processPair_passed_of_scoresNow (sx speed dt mx my : ℚ) (pr : PipePair)
    (h : scoresNow sx speed dt mx my pr = true) :
    (processPair sx speed dt mx my pr).top.passed_score = true := by
  simp only [scoresNow, Bool.and_eq_true, Bool.not_eq_true',
    decide_eq_true_eq] at h
  unfold processPair scorePair
  have hc : (movePair speed dt mx my pr).top.passed_score = false ∧
      (movePair speed dt mx my pr).top.x + (movePair speed dt mx my pr).top.width <
        sx := by
    unfold movePair
    dsimp only
    exact ⟨h.1, h.2⟩
  rw [if_pos hc]

theorem Dead_afterSpawn (s : PipesState) (dt : ℚ) (rnd : ℤ) (i : Nat)
    (h : Dead s i) : Dead (afterSpawn s dt rnd) i := by
  obtain ⟨h1, h2⟩ := h
  constructor
  · intro pr hpr hpid
    rcases mem_afterSpawn_pipes s dt rnd pr hpr with hm | hm
    · exact h1 pr hm hpid
    · rw [hpid] at hm
      omega
  · have := afterSpawn_next_id_le s dt rnd
    omega

theorem Dead_not_mem_scoredIds (mx my : ℚ) (s : PipesState) (dt : ℚ)
    (rnd : ℤ) (i : Nat) (h : Dead s i) : i ∉ scoredIds mx my s dt rnd := by
  intro hmem
  obtain ⟨pr, hpr, hpid, hsn⟩ := (mem_scoredIds_iff mx my s dt rnd i).1 hmem
  have hp := (Dead_afterSpawn s dt rnd i h).1 pr hpr hpid
  simp [scoresNow, hp] at hsn

theorem Dead_update (s : PipesState) (dt : ℚ) (rnd : ℤ) (mx my : ℚ) (i : Nat)
    (hInv : Inv s) (h : Dead s i) : Dead (update s dt rnd mx my) i := by
  have h2 := Inv_afterSpawn s dt rnd hInv
  have hd2 := Dead_afterSpawn s dt rnd i h
  constructor
  · intro r hr hpid
    rw [update_spec s dt rnd mx my h2.pidsNodup] at hr
    dsimp only at hr
    obtain ⟨pr, hpr, hEq, _⟩ := mem_pipesSpec _ _ dt mx my _ r hr
    have hprpid : pr.pid = i := by
      rw [hEq, processPair_pid] at hpid
      exact hpid
    have hp := hd2.1 pr hpr hprpid
    rw [hEq]
    exact processPair_passed_of_true _ _ dt mx my pr hp
  · rw [update_next_id]
    exact hd2.2

theorem scored_Dead (mx my : ℚ) (s : PipesState) (dt : ℚ) (rnd : ℤ) (i : Nat)
    (hInv : Inv s) (h : i ∈ scoredIds mx my s dt rnd) :
    Dead (update s dt rnd mx my) i := by
  have h2 := Inv_afterSpawn s dt rnd hInv
  obtain ⟨pr, hpr, hpid, hsn⟩ := (mem_scoredIds_iff mx my s dt rnd i).1 h
  constructor
  · intro r hr hrpid
    rw [update_spec s dt rnd mx my h2.pidsNodup] at hr
    dsimp only at hr
    obtain ⟨pr', hpr', hEq, _⟩ := mem_pipesSpec _ _ dt mx my _ r hr
    have hpe : pr' = pr := by
      refine List.inj_on_of_nodup_map h2.pidsNodup hpr' hpr ?_
      rw [hEq, processPair_pid] at hrpid
      rw [hrpid, hpid]
    subst hpe
    rw [hEq, afterSpawn_x_pos_score, afterSpawn_pipe_speed]
    exact processPair_passed_of_scoresNow _ _ dt mx my pr' hsn
  · rw [update_next_id, ← hpid]
    exact h2.pidsLt pr hpr

theorem Inv_runPM (mx my : ℚ) :
    ∀ (l : List (ℚ × ℤ)) (s : PipesState), Inv s → Inv (runPM mx my s l)
  | [], _, h => h
  | (dt, r) :: rest, s, h =>
      Inv_runPM mx my rest _ (Inv_update s dt r mx my h)

theorem contribCount_of_dead (mx my : ℚ) (i : Nat) :
    ∀ (l : List (ℚ × ℤ)) (s : PipesState), Inv s → Dead s i →
      contribCount mx my s l i = 0
  | [], _, _, _ => rfl
  | (dt, r) :: rest, s, hInv, hd => by
      simp only [contribCount]
      rw [if_neg (Dead_not_mem_scoredIds mx my s dt r i hd),
        contribCount_of_dead mx my i rest _ (Inv_update s dt r mx my hInv)
          (Dead_update s dt r mx my i hInv hd)]

theorem contribCount_le_one (mx my : ℚ) (i : Nat) :
    ∀ (l : List (ℚ × ℤ)) (s : PipesState), Inv s →
      contribCount mx my s l i ≤ 1
  | [], _, _ => by simp [contribCount]
  | (dt, r) :: rest, s, hInv => by
      simp only [contribCount]
      by_cases hmem : i ∈ scoredIds mx my s dt r
      · rw [if_pos hmem,
          contribCount_of_dead mx my i rest _ (Inv_update s dt r mx my hInv)
            (scored_Dead mx my s dt r i hInv hmem)]
      · rw [if_neg hmem]
        simpa using contribCount_le_one mx my i rest _ (Inv_update s dt r mx my hInv)

theorem runPM_score (mx my : ℚ) :
    ∀ (l : List (ℚ × ℤ)) (s : PipesState), Inv s →
      (runPM mx my s l).score = s.score + totalScore mx my s l
  | [], s, _ => by simp [runPM, totalScore]
  | (dt, r) :: rest, s, hInv => by
      simp only [runPM, totalScore]
      rw [runPM_score mx my rest _ (Inv_update s dt r mx my hInv),
        update_score s dt r mx my hInv]
      omega

/-- C2: across any sequence of `PipesManager.update` calls, a given
pair causes at most one score increment, ever (the `passed_score` flag
latches); the score always equals its initial value plus the number of
scoring events fired so far; and while a pair is live with its flag
still clear, it fires exactly on an update in which its moved right
edge `top.x + top.width` first drops strictly below the scoring
line. -/
theorem scoring_exactly_once (mx my : ℚ) (s : PipesState) (hInv : Inv s)
    (l : List (ℚ × ℤ)) (i : Nat) :
    contribCount mx my s l i ≤ 1 ∧
    (runPM mx my s l).score = s.score + totalScore mx my s l ∧
    (∀ l1 dtr l2, l = l1 ++ dtr :: l2 →
      ∀ pr ∈ (afterSpawn (runPM mx my s l1) dtr.1 dtr.2).pipes, pr.pid = i →
        (i ∈ scoredIds mx my (runPM mx my s l1) dtr.1 dtr.2 ↔
          scoresNow (runPM mx my s l1).x_pos_score
            (runPM mx my s l1).pipe_speed dtr.1 mx my pr = true)) := by
  refine ⟨contribCount_le_one mx my i l s hInv,
    runPM_score mx my l s hInv, ?_⟩
  intro l1 dtr l2 _ pr hpr hpid
  have hInv1 := Inv_runPM mx my l1 s hInv
  have h2 := Inv_afterSpawn _ dtr.1 dtr.2 hInv1
  constructor
  · intro hmem
    obtain ⟨pr', hpr', hpid', hsn⟩ :=
      (mem_scoredIds_iff mx my _ dtr.1 dtr.2 i).1 hmem
    have hpe : pr' = pr :=
      List.inj_on_of_nodup_map h2.pidsNodup hpr' hpr (by rw [hpid', hpid])
    rwa [hpe] at hsn
  · intro hsn
    exact (mem_scoredIds_iff mx my _ dtr.1 dtr.2 i).2 ⟨pr, hpr, hpid, hsn⟩

/-- Witness for C2: a two-update run on the staggered fixture in which
the pair with identity `1` crosses the scoring line on the first update
and stays past it on the second. -/
theorem scoring_exactly_once_witness :
    contribCount 0 0 pmCull [(2, 200), (2, 300)] 1 ≤ 1 ∧
    (runPM 0 0 pmCull [(2, 200), (2, 300)]).score =
      pmCull.score + totalScore 0 0 pmCull [(2, 200), (2, 300)] :=
  ⟨(scoring_exactly_once 0 0 pmCull pmCull_inv [(2, 200), (2, 300)] 1).1,
    (scoring_exactly_once 0 0 pmCull pmCull_inv [(2, 200), (2, 300)] 1).2.1⟩

end PipesManager

theorem ESChild.setEnabled_enabled (b : Bool) (c : ESChild) :
    (ESChild.setEnabled b c).enabled = b := by
  cases c <;> rfl

namespace EndScreenManager

theorem getPlayer?_map_setEnabled (b : Bool) :
    ∀ l : List ESChild, getPlayer? (l.map (ESChild.setEnabled b)) = getPlayer? l
  | [] => rfl
  | .playerC e p :: rest => rfl
  | .pipesC e m :: rest => getPlayer?_map_setEnabled b rest
  | .otherC e t :: rest => getPlayer?_map_setEnabled b rest

theorem getPipes?_map_setEnabled (b : Bool) :
    ∀ l : List ESChild, getPipes? (l.map (ESChild.setEnabled b)) = getPipes? l
  | [] => rfl
  | .playerC e p :: rest => getPipes?_map_setEnabled b rest
  | .pipesC e m :: rest => rfl
  | .otherC e t :: rest => getPipes?_map_setEnabled b rest

theorem enabled_map_setEnabled (l : List ESChild) :
    ∀ c ∈ l.map (ESChild.setEnabled true), c.enabled = true := by
  intro c hc
  obtain ⟨c0, _, hEq⟩ := List.mem_map.1 hc
  rw [← hEq]
  exact ESChild.setEnabled_enabled true c0

theorem modifyPlayer_spec (f : PlayerState → PlayerState) :
    ∀ (l : List ESChild) (p : PlayerState), getPlayer? l = some p →
      ∃ l', modifyPlayer f l = some l' ∧ getPlayer? l' = some (f p) ∧
        getPipes? l' = getPipes? l ∧
        ((∀ c ∈ l, c.enabled = true) → ∀ c ∈ l', c.enabled = true)
  | [], p, h => by simp [getPlayer?] at h
  | .playerC e q :: rest, p, h => by
      simp only [getPlayer?, Option.some.injEq] at h
      subst h
      refine ⟨.playerC e (f q) :: rest, rfl, rfl, rfl, ?_⟩
      intro hall c hc
      rcases List.mem_cons.1 hc with hc | hc
      · subst hc
        exact hall (.playerC e q) (by simp)
      · exact hall c (by simp [hc])
  | .pipesC e m :: rest, p, h => by
      obtain ⟨l', h1, h2, h3, h4⟩ := modifyPlayer_spec f rest p h
      refine ⟨.pipesC e m :: l', ?_, h2, ?_, ?_⟩
      · simp [modifyPlayer, h1]
      · simp only [getPipes?]
      · intro hall c hc
        rcases List.mem_cons.1 hc with hc | hc
        · subst hc
          exact hall (.pipesC e m) (by simp)
        · exact h4 (fun c0 hc0 => hall c0 (by simp [hc0])) c hc
  | .otherC e t :: rest, p, h => by
      obtain ⟨l', h1, h2, h3, h4⟩ := modifyPlayer_spec f rest p h
      refine ⟨.otherC e t :: l', ?_, h2, ?_, ?_⟩
      · simp [modifyPlayer, h1]
      · simp only [getPipes?]
        exact h3
      · intro hall c hc
        rcases List.mem_cons.1 hc with hc | hc
        · subst hc
          exact hall (.otherC e t) (by simp)
        · exact h4 (fun c0 hc0 => hall c0 (by simp [hc0])) c hc

theorem modifyPipes_spec (g : PipesState → PipesState) :
    ∀ (l : List ESChild) (m : PipesState), getPipes? l = some m →
      ∃ l', modifyPipes g l = some l' ∧ getPipes? l' = some (g m) ∧
        getPlayer? l' = getPlayer? l ∧
        ((∀ c ∈ l, c.enabled = true) → ∀ c ∈ l', c.enabled = true)
  | [], m, h => by simp [getPipes?] at h
  | .pipesC e q :: rest, m, h => by
      simp only [getPipes?, Option.some.injEq] at h
      subst h
      refine ⟨.pipesC e (g q) :: rest, rfl, rfl, rfl, ?_⟩
      intro hall c hc
      rcases List.mem_cons.1 hc with hc | hc
      · subst hc
        exact hall (.pipesC e q) (by simp)
      · exact hall c (by simp [hc])
  | .playerC e p :: rest, m, h => by
      obtain ⟨l', h1, h2, h3, h4⟩ := modifyPipes_spec g rest m h
      refine ⟨.playerC e p :: l', ?_, h2, ?_, ?_⟩
      · simp [modifyPipes, h1]
      · simp only [getPlayer?]
      · intro hall c hc
        rcases List.mem_cons.1 hc with hc | hc
        · subst hc
          exact hall (.playerC e p) (by simp)
        · exact h4 (fun c0 hc0 => hall c0 (by simp [hc0])) c hc
  | .otherC e t :: rest, m, h => by
      obtain ⟨l', h1, h2, h3, h4⟩ := modifyPipes_spec g rest m h
      refine ⟨.otherC e t :: l', ?_, h2, ?_, ?_⟩
      · simp [modifyPipes, h1]
      · simp only [getPlayer?]
        exact h3
      · intro hall c hc
        rcases List.mem_cons.1 hc with hc | hc
        · subst hc
          exact hall (.otherC e t) (by simp)
        · exact h4 (fun c0 hc0 => hall c0 (by simp [hc0])) c hc

/-- C5: the restart transition of `EndScreenManager.update` is a no-op
unless the controller is in the game-over state with the restart key
held; on a triggered restart it clears the game-over flag, re-enables
every direct child, puts the actor back at the spawn position
`(100, 100)` with zero vertical velocity, and resets the pipes manager,
which afterwards holds zero pairs and zero score. -/
theorem restart_spec (r : Bool) (dt : ℚ) (s : ESState) :
    (s.is_game_over = false → update r dt s = some s) ∧
    (r = false → update r dt s = some s) ∧
    (s.is_game_over = true → r = true →
      ∀ p m, getPlayer? s.children = some p → getPipes? s.children = some m →
        ∃ s', update r dt s = some s' ∧
          s'.is_game_over = false ∧
          (∀ c ∈ s'.children, c.enabled = true) ∧
          getPlayer? s'.children =
            some { p with x := 100, y := 100, velocity_y := 0 } ∧
          getPipes? s'.children = some (PipesManager.reset m) ∧
          (PipesManager.reset m).pipes = [] ∧
          (PipesManager.reset m).score = 0 ∧
          (PipesManager.reset m).spawn_timer = 0) := by
  refine ⟨?_, ?_, ?_⟩
  · intro h
    simp [update, h]
  · intro h
    subst h
    by_cases hgo : s.is_game_over <;> simp [update, hgo]
  · intro hgo hr p m hp hm
    subst hr
    have hp0 : getPlayer? (s.children.map (ESChild.setEnabled true)) = some p := by
      rw [getPlayer?_map_setEnabled]
      exact hp
    have hm0 : getPipes? (s.children.map (ESChild.setEnabled true)) = some m := by
      rw [getPipes?_map_setEnabled]
      exact hm
    obtain ⟨l1, h1, h2, h3, h4⟩ :=
      modifyPlayer_spec (fun q => { q with x := 100, y := 100, velocity_y := 0 })
        _ p hp0
    have hm1 : getPipes? l1 = some m := by
      rw [h3]
      exact hm0
    obtain ⟨l2, g1, g2, g3, g4⟩ := modifyPipes_spec PipesManager.reset _ m hm1
    refine ⟨{ is_game_over := false, children := l2 }, ?_, rfl, ?_, ?_, g2,
      rfl, rfl, rfl⟩
    · simp only [update, hgo, if_true, h1, g1]
    · exact g4 (h4 (enabled_map_setEnabled s.children))
    · rw [g3, h2]

/-- Witness for C5 on the demo game-over state: the restart produces a
state with the actor respawned, the manager emptied and every child
enabled. -/
theorem restart_spec_witness :
    ∃ s', update true 1 esDemo = some s' ∧
      s'.is_game_over = false ∧
      (∀ c ∈ s'.children, c.enabled = true) ∧
      getPlayer? s'.children =
        some { pDemo with x := 100, y := 100, velocity_y := 0 } ∧
      getPipes? s'.children = some (PipesManager.reset pmDemo2) ∧
      (PipesManager.reset pmDemo2).pipes = [] ∧
      (PipesManager.reset pmDemo2).score = 0 ∧
      (PipesManager.reset pmDemo2).spawn_timer = 0 :=
  (restart_spec true 1 esDemo).2.2 rfl rfl pDemo pmDemo2 rfl rfl

end EndScreenManager

namespace PlayerObject

/-- The physics half of `PlayerObject.update` in closed form: the new
vertical position is the integrated one clamped to
`[0, screenH - sprite_height]`, the velocity is the integrated one
except that it is zeroed on a clamp, and the other fields stand
still. -/
theorem update_phys (px py : ℚ) (space : Bool) (m : PipesState) (dt : ℚ)
    (s : PlayerState) :
    ((update px py space m dt s).1.y =
      if s.y + ((if space then -300 else s.velocity_y) + 800 * dt) * dt >
          screenH - s.sprite_height
      then screenH - s.sprite_height
      else if s.y + ((if space then -300 else s.velocity_y) + 800 * dt) * dt < 0
      then 0
      else s.y + ((if space then -300 else s.velocity_y) + 800 * dt) * dt) ∧
    ((update px py space m dt s).1.velocity_y =
      if s.y + ((if space then -300 else s.velocity_y) + 800 * dt) * dt >
          screenH - s.sprite_height
      then 0
      else if s.y + ((if space then -300 else s.velocity_y) + 800 * dt) * dt < 0
      then 0
      else (if space then -300 else s.velocity_y) + 800 * dt) ∧
    (update px py space m dt s).1.sprite_height = s.sprite_height ∧
    (update px py space m dt s).1.x = s.x := by
  unfold update
  dsimp only
  by_cases h1 : s.y + ((if space then (-300 : ℚ) else s.velocity_y) + 800 * dt) * dt >
      screenH - s.sprite_height
  · simp only [if_pos h1]
    refine ⟨?_, ?_, ?_, ?_⟩ <;> first | trivial | rfl
  · simp only [if_neg h1]
    by_cases h2 : s.y + ((if space then (-300 : ℚ) else s.velocity_y) + 800 * dt) * dt < 0
    · simp only [if_pos h2]
      refine ⟨?_, ?_, ?_, ?_⟩ <;> first | trivial | rfl
    · simp only [if_neg h2]
      refine ⟨?_, ?_, ?_, ?_⟩ <;> first | trivial | rfl

/-- A no-jump step that stays inside the bounds integrates position and
velocity without clamping. -/
theorem step_fields (m : PipesState) (dt : ℚ) (s : PlayerState)
    (h1 : ¬ screenH - s.sprite_height < s.y + (s.velocity_y + 800 * dt) * dt)
    (h2 : ¬ s.y + (s.velocity_y + 800 * dt) * dt < 0) :
    (update 0 0 false m dt s).1.y = s.y + (s.velocity_y + 800 * dt) * dt ∧
    (update 0 0 false m dt s).1.velocity_y = s.velocity_y + 800 * dt ∧
    (update 0 0 false m dt s).1.sprite_height = s.sprite_height := by
  have h := update_phys 0 0 false m dt s
  simp only [Bool.false_eq_true, if_false] at h
  rw [h.1, h.2.1, if_neg h1, if_neg h1, if_neg h2, if_neg h2]
  exact ⟨rfl, rfl, h.2.2.1⟩

/-- A clamp-free no-jump run never zeroes the velocity, so the velocity
just integrates the constant gravity over the run. -/
theorem runNoJump_velocity (m : PipesState) :
    ∀ (dts : List ℚ) (s : PlayerState), clampFree m s dts = true →
      (runNoJump m s dts).velocity_y = s.velocity_y + 800 * dts.sum
  | [], s, _ => by simp [runNoJump]
  | dt :: rest, s, h => by
      simp only [clampFree, Bool.and_eq_true, decide_eq_true_eq] at h
      obtain ⟨⟨hle, hge⟩, hrest⟩ := h
      simp only [runNoJump, List.sum_cons]
      rw [runNoJump_velocity m rest _ hrest,
        (step_fields m dt s (not_lt.2 hle) (not_lt.2 hge)).2.1]
      ring

/-- C9 (amended): per update the position is clamped to
`[0, field_height - height]` and the velocity is zeroed whenever the
clamp is hit at either bound; consequently a no-jump run whose dt
values sum to one second yields `velocity_y = v0 + 800` only as long as
no clamp fired during the run — if the fall reaches the ground inside
that second the velocity ends at `0`, not `800`. -/
theorem player_fall_spec (m : PipesState) (s : PlayerState) (dts : List ℚ)
    (hg : 0 ≤ screenH - s.sprite_height) :
    (∀ dt space px py,
      0 ≤ (update px py space m dt s).1.y ∧
      (update px py space m dt s).1.y ≤ screenH - s.sprite_height ∧
      (s.y + ((if space then -300 else s.velocity_y) + 800 * dt) * dt >
          screenH - s.sprite_height →
        (update px py space m dt s).1.y = screenH - s.sprite_height ∧
        (update px py space m dt s).1.velocity_y = 0) ∧
      (s.y + ((if space then -300 else s.velocity_y) + 800 * dt) * dt < 0 →
        (update px py space m dt s).1.y = 0 ∧
        (update px py space m dt s).1.velocity_y = 0)) ∧
    (clampFree m s dts = true →
      (runNoJump m s dts).velocity_y = s.velocity_y + 800 * dts.sum) := by
  constructor
  · intro dt space px py
    obtain ⟨hy, hv, _, _⟩ := update_phys px py space m dt s
    refine ⟨?_, ?_, ?_, ?_⟩
    · rw [hy]
      by_cases h1 : s.y + ((if space then (-300 : ℚ) else s.velocity_y) + 800 * dt) * dt >
          screenH - s.sprite_height
      · rw [if_pos h1]
        exact hg
      · rw [if_neg h1]
        by_cases h2 : s.y + ((if space then (-300 : ℚ) else s.velocity_y) + 800 * dt) * dt < 0
        · rw [if_pos h2]
        · rw [if_neg h2]
          exact not_lt.1 h2
    · rw [hy]
      by_cases h1 : s.y + ((if space then (-300 : ℚ) else s.velocity_y) + 800 * dt) * dt >
          screenH - s.sprite_height
      · rw [if_pos h1]
      · rw [if_neg h1]
        by_cases h2 : s.y + ((if space then (-300 : ℚ) else s.velocity_y) + 800 * dt) * dt < 0
        · rw [if_pos h2]
          exact hg
        · rw [if_neg h2]
          exact not_lt.1 h1
    · intro hcl
      rw [hy, hv, if_pos hcl, if_pos hcl]
      exact ⟨rfl, rfl⟩
    · intro hcl
      have h1 : ¬ s.y + ((if space then (-300 : ℚ) else s.velocity_y) + 800 * dt) * dt >
          screenH - s.sprite_height := by
        intro hcontra
        linarith
      rw [hy, hv, if_neg h1, if_neg h1, if_pos hcl, if_pos hcl]
      exact ⟨rfl, rfl⟩
  · exact runNoJump_velocity m dts s

/-- Counterexample to C9 as stated: a single update with `dt = 1`
(whose dt values sum to one second) drops the actor from `y = 100` to
the ground clamp at `550 = 600 - 50`, and because clamping zeroes the
velocity the final `velocity_y` is `0`, not `800`. -/
theorem player_fall_counterexample :
    ([(1 : ℚ)].sum = 1) ∧ pDemo.y = 100 ∧ pDemo.velocity_y = 0 ∧
    (runNoJump pmDemo pDemo [1]).y = 550 ∧
    (runNoJump pmDemo pDemo [1]).velocity_y = 0 ∧
    (runNoJump pmDemo pDemo [1]).velocity_y ≠ 800 := by
  have h := update_phys 0 0 false pmDemo 1 pDemo
  have hcond : pDemo.y + ((if false then (-300 : ℚ) else pDemo.velocity_y) + 800 * 1) * 1 >
      screenH - pDemo.sprite_height := by
    norm_num [pDemo, screenH]
  have hy : (runNoJump pmDemo pDemo [1]).y = 550 := by
    show (update 0 0 false pmDemo 1 pDemo).1.y = 550
    rw [h.1, if_pos hcond]
    norm_num [pDemo, screenH]
  have hv : (runNoJump pmDemo pDemo [1]).velocity_y = 0 := by
    show (update 0 0 false pmDemo 1 pDemo).1.velocity_y = 0
    rw [h.2.1, if_pos hcond]
  exact ⟨by norm_num, rfl, rfl, hy, hv, by rw [hv]; norm_num⟩

/-- Witness for the amended C9: eight equal steps of an eighth of a
second are clamp-free (the actor lands exactly on the ground bound
without overshooting) and leave `velocity_y = 800`. -/
theorem player_fall_witness :
    clampFree pmDemo pDemo dts8 = true ∧ dts8.sum = 1 ∧
    (runNoJump pmDemo pDemo dts8).velocity_y = 800 := by
  have hcf : clampFree pmDemo pDemo dts8 = true := by
    norm_num [dts8, clampFree, update, pDemo, pmDemo, screenH]
  refine ⟨hcf, by norm_num [dts8], ?_⟩
  rw [(player_fall_spec pmDemo pDemo dts8 (by norm_num [pDemo, screenH])).2 hcf]
  norm_num [pDemo, dts8]

end PlayerObject

end JocPygame
